import Mathlib

/-!
Verification development for the hand-tracked string instrument.

The embedding models the per-frame interaction pipeline of the repository:
the segment-intersection test of src/utils/math.ts, the per-frame anchor,
plucker and ripple logic of src/components/StarryCanvas.tsx (onResults), and
the audio service (initialize / playPluck). JavaScript numbers are modelled
as exact rationals.
-/

/-- Point in pixel space, from src/types (interface Point). -/
structure Point where
  x : ℚ
  y : ℚ
deriving DecidableEq, Repr

/-- Determinant of the two direction vectors, from getLineIntersection in
src/utils/math.ts: det = (p2.x - p1.x)*(p4.y - p3.y) - (p4.x - p3.x)*(p2.y - p1.y). -/
def segDet (p1 p2 p3 p4 : Point) : ℚ :=
  (p2.x - p1.x) * (p4.y - p3.y) - (p4.x - p3.x) * (p2.y - p1.y)

/-- Fraction named lambda in getLineIntersection (src/utils/math.ts). -/
def segLambda (p1 p2 p3 p4 : Point) : ℚ :=
  ((p4.y - p3.y) * (p4.x - p1.x) + (p3.x - p4.x) * (p4.y - p1.y)) / segDet p1 p2 p3 p4

/-- Fraction named gamma in getLineIntersection (src/utils/math.ts). -/
def segGamma (p1 p2 p3 p4 : Point) : ℚ :=
  ((p1.y - p2.y) * (p4.x - p1.x) + (p2.x - p1.x) * (p4.y - p1.y)) / segDet p1 p2 p3 p4

/-- Shallow embedding of getLineIntersection from src/utils/math.ts:
if det = 0 return false, else test 0 < lambda < 1 and 0 < gamma < 1. -/
def getLineIntersection (p1 p2 p3 p4 : Point) : Bool :=
  if segDet p1 p2 p3 p4 = 0 then false
  else
    decide ((0 < segLambda p1 p2 p3 p4 ∧ segLambda p1 p2 p3 p4 < 1) ∧
      (0 < segGamma p1 p2 p3 p4 ∧ segGamma p1 p2 p3 p4 < 1))

/-- Parametric statement that the point at fraction gam along segment p1-p2
coincides with the point at fraction lam along segment p3-p4. -/
def onSegParam (p1 p2 p3 p4 : Point) (lam gam : ℚ) : Prop :=
  p1.x + gam * (p2.x - p1.x) = p3.x + lam * (p4.x - p3.x) ∧
  p1.y + gam * (p2.y - p1.y) = p3.y + lam * (p4.y - p3.y)

instance (p1 p2 p3 p4 : Point) (lam gam : ℚ) :
    Decidable (onSegParam p1 p2 p3 p4 lam gam) := by
  unfold onSegParam; infer_instance

/-- When det is nonzero, the fractions computed by the source solve the
parametric intersection equations: the crossing point sits at fraction
(1 - gamma) along p3-p4 and at fraction lambda along p1-p2. -/
theorem onSegParam_of_det_ne
    (p1 p2 p3 p4 : Point) (hdet : segDet p1 p2 p3 p4 ≠ 0) :
    onSegParam p1 p2 p3 p4 (1 - segGamma p1 p2 p3 p4) (segLambda p1 p2 p3 p4) := by
  have hd : (p2.x - p1.x) * (p4.y - p3.y) - (p4.x - p3.x) * (p2.y - p1.y) ≠ 0 := hdet
  unfold onSegParam segLambda segGamma segDet
  constructor <;> (field_simp; ring)

/-- Uniqueness direction: any parametric solution of the intersection
equations must equal the fractions computed by the source (gam equals lambda
and lam equals 1 - gamma), provided det is nonzero. -/
theorem onSegParam_unique
    (p1 p2 p3 p4 : Point) (lam gam : ℚ) (hdet : segDet p1 p2 p3 p4 ≠ 0)
    (h : onSegParam p1 p2 p3 p4 lam gam) :
    gam = segLambda p1 p2 p3 p4 ∧ lam = 1 - segGamma p1 p2 p3 p4 := by
  obtain ⟨h1, h2⟩ := h
  constructor
  · unfold segLambda
    rw [eq_div_iff hdet]
    unfold segDet
    linear_combination (p4.y - p3.y) * h1 - (p4.x - p3.x) * h2
  · unfold segGamma
    field_simp
    unfold segDet
    linear_combination (p2.y - p1.y) * h1 - (p2.x - p1.x) * h2

/-- Characterization of the boolean result: true exactly when det is nonzero
and some strictly interior parametric crossing exists. -/
theorem getLineIntersection_iff (p1 p2 p3 p4 : Point) :
    getLineIntersection p1 p2 p3 p4 = true ↔
      segDet p1 p2 p3 p4 ≠ 0 ∧
        ∃ lam gam : ℚ, onSegParam p1 p2 p3 p4 lam gam ∧
          0 < lam ∧ lam < 1 ∧ 0 < gam ∧ gam < 1 := by
  unfold getLineIntersection
  by_cases hdet : segDet p1 p2 p3 p4 = 0
  · simp [hdet]
  · simp only [hdet, if_false, decide_eq_true_eq, ne_eq, not_false_eq_true, true_and]
    constructor
    · rintro ⟨⟨hl0, hl1⟩, hg0, hg1⟩
      exact ⟨1 - segGamma p1 p2 p3 p4, segLambda p1 p2 p3 p4,
        onSegParam_of_det_ne p1 p2 p3 p4 hdet,
        by linarith, by linarith, hl0, hl1⟩
    · rintro ⟨lam, gam, hp, hlam0, hlam1, hgam0, hgam1⟩
      obtain ⟨hg, hl⟩ := onSegParam_unique p1 p2 p3 p4 lam gam hdet hp
      constructor
      · constructor <;> [rw [← hg]; rw [← hg]] <;> assumption
      · constructor <;> nlinarith [hl]

/-- Swapping the two segments negates the determinant. -/
theorem segDet_swap (p1 p2 p3 p4 : Point) :
    segDet p3 p4 p1 p2 = - segDet p1 p2 p3 p4 := by
  unfold segDet; ring

/-- C1: the segment-intersection test returns true iff the determinant is
nonzero and the parametric intersection fractions lam (along p3-p4) and gam
(along p1-p2) both lie strictly inside (0,1); in particular it returns false
whenever det = 0 and false when the segments touch exactly at an endpoint
(a parametric meeting with lam or gam equal to 0 or 1). -/
theorem c1_intersection_characterization (p1 p2 p3 p4 : Point) :
    (getLineIntersection p1 p2 p3 p4 = true ↔
      segDet p1 p2 p3 p4 ≠ 0 ∧
        ∃ lam gam : ℚ, onSegParam p1 p2 p3 p4 lam gam ∧
          0 < lam ∧ lam < 1 ∧ 0 < gam ∧ gam < 1) ∧
    (segDet p1 p2 p3 p4 = 0 → getLineIntersection p1 p2 p3 p4 = false) ∧
    (∀ lam gam : ℚ, onSegParam p1 p2 p3 p4 lam gam →
      (lam = 0 ∨ lam = 1 ∨ gam = 0 ∨ gam = 1) →
      getLineIntersection p1 p2 p3 p4 = false) := by
  refine ⟨getLineIntersection_iff p1 p2 p3 p4, ?_, ?_⟩
  · intro h; unfold getLineIntersection; simp [h]
  · intro lam gam hp hb
    cases hres : getLineIntersection p1 p2 p3 p4 with
    | false => rfl
    | true =>
      exfalso
      obtain ⟨hdet, lam2, gam2, hp2, hl0, hl1, hg0, hg1⟩ :=
        (getLineIntersection_iff p1 p2 p3 p4).mp hres
      obtain ⟨hg, hl⟩ := onSegParam_unique p1 p2 p3 p4 lam gam hdet hp
      obtain ⟨hg2, hl2⟩ := onSegParam_unique p1 p2 p3 p4 lam2 gam2 hdet hp2
      have hlam : lam = lam2 := by rw [hl, hl2]
      have hgam : gam = gam2 := by rw [hg, hg2]
      rcases hb with h | h | h | h
      · rw [h] at hlam; linarith
      · rw [h] at hlam; linarith
      · rw [h] at hgam; linarith
      · rw [h] at hgam; linarith

/-- Witness for C1 at a concrete degenerate input: two collinear segments on
the diagonal have det = 0, so the test returns false. -/
theorem c1_witness :
    getLineIntersection ⟨0, 0⟩ ⟨1, 1⟩ ⟨2, 2⟩ ⟨3, 3⟩ = false :=
  (c1_intersection_characterization ⟨0, 0⟩ ⟨1, 1⟩ ⟨2, 2⟩ ⟨3, 3⟩).2.1
    (by norm_num [segDet])

/-- C7: the boolean result of the segment-intersection test is symmetric
under swapping the roles of the two segments. -/
theorem c7_swap_symmetry (p1 p2 p3 p4 : Point) :
    getLineIntersection p1 p2 p3 p4 = getLineIntersection p3 p4 p1 p2 := by
  rw [Bool.eq_iff_iff, getLineIntersection_iff, getLineIntersection_iff]
  constructor
  · rintro ⟨hdet, lam, gam, hp, hl0, hl1, hg0, hg1⟩
    refine ⟨?_, gam, lam, ⟨hp.1.symm, hp.2.symm⟩, hg0, hg1, hl0, hl1⟩
    rw [segDet_swap]
    exact neg_ne_zero.mpr hdet
  · rintro ⟨hdet, lam, gam, hp, hl0, hl1, hg0, hg1⟩
    refine ⟨?_, gam, lam, ⟨hp.1.symm, hp.2.symm⟩, hg0, hg1, hl0, hl1⟩
    rw [show segDet p1 p2 p3 p4 = - segDet p3 p4 p1 p2 from by rw [segDet_swap]]
    exact neg_ne_zero.mpr hdet

example : getLineIntersection ⟨50, -10⟩ ⟨50, 10⟩ ⟨0, 0⟩ ⟨100, 0⟩ = true := by
  simp only [getLineIntersection, segDet, segLambda, segGamma]; norm_num
example : getLineIntersection ⟨50, -10⟩ ⟨50, -1⟩ ⟨0, 0⟩ ⟨100, 0⟩ = false := by
  simp only [getLineIntersection, segDet, segLambda, segGamma]; norm_num
example : getLineIntersection ⟨0, -10⟩ ⟨0, 10⟩ ⟨0, 0⟩ ⟨100, 0⟩ = false := by
  simp only [getLineIntersection, segDet, segLambda, segGamma]; norm_num

/-- Normalized hand landmark, from src/types (interface HandLandmark). -/
structure HandLandmark where
  x : ℚ
  y : ℚ
  z : ℚ
deriving DecidableEq, Repr

/-- A detected hand is the fixed-size ordered sequence of 21 MediaPipe
landmarks; onResults reads only landmark 8 (index tip) and 12 (middle tip). -/
def Hand : Type := Fin 21 → HandLandmark

/-- Scaling of a normalized landmark into pixel space, as in onResults:
x times canvas width, y times canvas height. -/
def scalePoint (w hgt : ℚ) (lm : HandLandmark) : Point :=
  ⟨lm.x * w, lm.y * hgt⟩

/-- Index-finger tip of a hand in pixel space (landmarks[8] in onResults). -/
def indexTip (w hgt : ℚ) (hand : Hand) : Point := scalePoint w hgt (hand 8)

/-- Middle-finger tip of a hand in pixel space (landmarks[12] in onResults). -/
def middleTip (w hgt : ℚ) (hand : Hand) : Point := scalePoint w hgt (hand 12)

/-- Anchor extraction from onResults: the loop assigns the first index tip to
leftIndex and the second to rightIndex; later hands contribute no anchor. -/
def extractAnchors (w hgt : ℚ) (hands : List Hand) : Option Point × Option Point :=
  match hands with
  | [] => (none, none)
  | [h1] => (some (indexTip w hgt h1), none)
  | h1 :: h2 :: _ => (some (indexTip w hgt h1), some (indexTip w hgt h2))

/-- Plucker extraction from onResults: every detected hand pushes its middle
tip onto activePluckers, in detection order. -/
def extractPluckers (w hgt : ℚ) (hands : List Hand) : List Point :=
  hands.map (middleTip w hgt)

/-- Pluck event: the crossing point and the normalized horizontal position
passed to audioService.playPluck (plucker.x / width). -/
structure PluckEvent where
  point : Point
  normalizedPosition : ℚ
deriving DecidableEq, Repr

/-- Per-slot crossing test from onResults: if a previous position is stored
for slot i and the motion segment prev-to-current crosses the anchor
segment, a pluck event fires carrying the current point and its x divided
by the surface width. -/
def slotEvent (prev : List Point) (la ra : Point) (w : ℚ) (i : ℕ) (cur : Point) :
    Option PluckEvent :=
  match prev.get? i with
  | some pv =>
      if getLineIntersection pv cur la ra then some ⟨cur, cur.x / w⟩ else none
  | none => none

/-- Shallow embedding of the per-frame plucker logic of onResults
(src/components/StarryCanvas.tsx). The stored previous positions are a list
indexed by slot: the source keys its record by the slot index and only ever
writes the dense range of slots of the current frame, so the record is
always a dense map from an initial segment of the naturals. When both
anchors are present, each slot is tested against its old stored value and
then overwritten (slots beyond the current plucker count keep their stale
values); when an anchor is missing the whole history is discarded and no
tests run. Returns the new stored positions and the emitted pluck events. -/
def processFrame (w hgt : ℚ) (prev : List Point) (hands : List Hand) :
    List Point × List PluckEvent :=
  let pluckers := extractPluckers w hgt hands
  match extractAnchors w hgt hands with
  | (some la, some ra) =>
      (pluckers ++ prev.drop pluckers.length,
        pluckers.enum.filterMap fun ic => slotEvent prev la ra w ic.1 ic.2)
  | _ => ([], [])

/-- Folding processFrame over a whole sequence of input frames, keeping the
stored plucker positions. -/
def runFrames (w hgt : ℚ) (init : List Point) (fs : List (List Hand)) : List Point :=
  fs.foldl (fun s f => (processFrame w hgt s f).1) init

/-- Concrete hand used in witnesses: index tip at normalized (0,0), middle
tip at normalized (1/2, 1/10). -/
def demoHand1 : Hand := fun i => if i.val = 12 then ⟨1/2, 1/10, 0⟩ else ⟨0, 0, 0⟩

/-- Concrete hand used in witnesses: index tip at normalized (1,0), middle
tip at normalized (9/10, 9/10). -/
def demoHand2 : Hand := fun i =>
  if i.val = 8 then ⟨1, 0, 0⟩ else if i.val = 12 then ⟨9/10, 9/10, 0⟩ else ⟨0, 0, 0⟩

/-- Concrete hand whose landmarks all sit at normalized (1/2, 1/2). -/
def soloHand : Hand := fun _ => ⟨1/2, 1/2, 0⟩

/-- Value of the literal landmark index 8 inside Fin 21. -/
theorem finVal8 : ((8 : Fin 21) : ℕ) = 8 := rfl

/-- Value of the literal landmark index 12 inside Fin 21. -/
theorem finVal12 : ((12 : Fin 21) : ℕ) = 12 := rfl

example : extractAnchors 100 100 [demoHand1, demoHand2] = (some ⟨0, 0⟩, some ⟨100, 0⟩) := by
  norm_num [extractAnchors, indexTip, scalePoint, demoHand1, demoHand2, finVal8, finVal12]

example : extractPluckers 100 100 [demoHand1, demoHand2] = [⟨50, 10⟩, ⟨90, 90⟩] := by
  norm_num [extractPluckers, middleTip, scalePoint, demoHand1, demoHand2, finVal8, finVal12]

example : (processFrame 100 100 [⟨50, -10⟩] [demoHand1, demoHand2]).2 =
    [⟨⟨50, 10⟩, 1/2⟩] := by
  norm_num [processFrame, extractAnchors, extractPluckers, indexTip, middleTip,
    scalePoint, demoHand1, demoHand2, finVal8, finVal12, slotEvent, List.enum,
    List.filterMap_cons, List.filterMap_nil,
    getLineIntersection, segDet, segLambda, segGamma]

/-- C2: in a frame with both anchors present, a stored previous position for
slot i, and a crossing of the anchor segment by the motion segment of slot
i, the per-slot test emits exactly the event carrying the current point and
its x divided by the surface width, the emitted frame events are exactly the
per-slot results, the event is among the frame events; concretely, with
anchors (0,0)-(100,0), surface width 100 and a plucker moving from (50,-10)
to (50,10), the frame emits the single event with normalizedPosition 1/2. -/
theorem c2_pluck_event_fires (w hgt : ℚ) (prev : List Point) (hands : List Hand)
    (la ra pv cur : Point) (i : ℕ)
    (hanch : extractAnchors w hgt hands = (some la, some ra))
    (hprev : prev.get? i = some pv)
    (hcur : (extractPluckers w hgt hands).get? i = some cur)
    (hcross : getLineIntersection pv cur la ra = true) :
    slotEvent prev la ra w i cur = some ⟨cur, cur.x / w⟩ ∧
    (processFrame w hgt prev hands).2 =
      (extractPluckers w hgt hands).enum.filterMap
        (fun ic => slotEvent prev la ra w ic.1 ic.2) ∧
    (⟨cur, cur.x / w⟩ : PluckEvent) ∈ (processFrame w hgt prev hands).2 ∧
    (processFrame 100 100 [⟨50, -10⟩] [demoHand1, demoHand2]).2 =
      [⟨⟨50, 10⟩, 1/2⟩] := by
  have hse : slotEvent prev la ra w i cur = some ⟨cur, cur.x / w⟩ := by
    unfold slotEvent
    rw [hprev]
    simp [hcross]
  have hev : (processFrame w hgt prev hands).2 =
      (extractPluckers w hgt hands).enum.filterMap
        (fun ic => slotEvent prev la ra w ic.1 ic.2) := by
    simp only [processFrame, hanch]
  refine ⟨hse, hev, ?_, ?_⟩
  · rw [hev]
    refine List.mem_filterMap.mpr ⟨(i, cur), ?_, hse⟩
    apply List.get?_mem
    rw [List.get?_enum, hcur]
    rfl
  · norm_num [processFrame, extractAnchors, extractPluckers, indexTip, middleTip,
      scalePoint, demoHand1, demoHand2, finVal8, finVal12, slotEvent, List.enum,
      List.filterMap_cons, List.filterMap_nil,
      getLineIntersection, segDet, segLambda, segGamma]

/-- Witness for C2 at the concrete scenario of the claim: anchors at (0,0)
and (100,0), surface 100 by 100, previous plucker position (50,-10) and
current (50,10). -/
theorem c2_witness :
    slotEvent [⟨50, -10⟩] ⟨0, 0⟩ ⟨100, 0⟩ 100 0 ⟨50, 10⟩ =
      some ⟨⟨50, 10⟩, (50 : ℚ) / 100⟩ :=
  (c2_pluck_event_fires 100 100 [⟨50, -10⟩] [demoHand1, demoHand2]
    ⟨0, 0⟩ ⟨100, 0⟩ ⟨50, -10⟩ ⟨50, 10⟩ 0
    (by norm_num [extractAnchors, indexTip, scalePoint, demoHand1, demoHand2,
      finVal8, finVal12])
    (by rfl)
    (by norm_num [extractPluckers, middleTip, scalePoint, demoHand1, demoHand2,
      finVal8, finVal12])
    (by simp only [getLineIntersection, segDet, segLambda, segGamma]; norm_num)).1

/-- When the stored history is empty, no slot has a previous position, so a
frame emits no events whatever its hands are. -/
theorem processFrame_events_nil_prev (w hgt : ℚ) (hands : List Hand) :
    (processFrame w hgt [] hands).2 = [] := by
  unfold processFrame
  cases hax : extractAnchors w hgt hands with
  | mk a b =>
    cases a <;> cases b <;> simp [slotEvent]

/-- C3: a frame with fewer than two hands discards the whole stored state
and emits nothing, and the next frame, whatever its hands, emits no pluck
event because the cleared history leaves no previous positions. -/
theorem c3_clear_prevents_spurious_pluck (w hgt : ℚ) (prev : List Point)
    (hands hands2 : List Hand) (hlt : hands.length < 2) :
    processFrame w hgt prev hands = ([], []) ∧
    (processFrame w hgt (processFrame w hgt prev hands).1 hands2).2 = [] := by
  have h1 : processFrame w hgt prev hands = ([], []) := by
    match hands, hlt with
    | [], _ => simp [processFrame, extractAnchors, extractPluckers]
    | [h1], _ => simp [processFrame, extractAnchors, extractPluckers]
  refine ⟨h1, ?_⟩
  rw [h1]
  exact processFrame_events_nil_prev w hgt hands2

/-- Witness for C3: a one-hand frame followed by the two-hand demo frame
emits no event in the second frame. -/
theorem c3_witness :
    processFrame 100 100 [⟨50, -10⟩, ⟨90, 90⟩] [soloHand] = ([], []) ∧
    (processFrame 100 100
      (processFrame 100 100 [⟨50, -10⟩, ⟨90, 90⟩] [soloHand]).1
      [demoHand1, demoHand2]).2 = [] :=
  c3_clear_prevents_spurious_pluck 100 100 [⟨50, -10⟩, ⟨90, 90⟩]
    [soloHand] [demoHand1, demoHand2] (by simp)

/-- Size of the stored state after one frame: cleared when fewer than two
hands are present, otherwise the current plucker count plus any stale slots
beyond it that survive from earlier frames. -/
theorem processFrame_state_length (w hgt : ℚ) (prev : List Point) (hands : List Hand) :
    (processFrame w hgt prev hands).1.length =
      if 2 ≤ hands.length then max hands.length prev.length else 0 := by
  rcases hands with _ | ⟨a, _ | ⟨b, t⟩⟩
  · simp [processFrame, extractAnchors, extractPluckers]
  · simp [processFrame, extractAnchors, extractPluckers]
  · simp only [processFrame, extractAnchors, extractPluckers, List.length_cons,
      List.length_append, List.length_map, List.length_drop]
    rw [if_pos (by omega)]
    omega

/-- Unfolding one frame of runFrames. -/
theorem runFrames_cons (w hgt : ℚ) (init : List Point) (f : List Hand)
    (fs : List (List Hand)) :
    runFrames w hgt init (f :: fs) = runFrames w hgt (processFrame w hgt init f).1 fs := by
  simp [runFrames]

/-- The stored state never exceeds two entries when every frame detects at
most two hands (the configured MediaPipe maximum). -/
theorem runFrames_length_le (w hgt : ℚ) (fs : List (List Hand)) (init : List Point)
    (hinit : init.length ≤ 2) (hfs : ∀ f ∈ fs, f.length ≤ 2) :
    (runFrames w hgt init fs).length ≤ 2 := by
  induction fs generalizing init with
  | nil => simpa [runFrames] using hinit
  | cons f fs ih =>
    rw [runFrames_cons]
    refine ih (processFrame w hgt init f).1 ?_ (fun g hg => hfs g (List.mem_cons_of_mem f hg))
    rw [processFrame_state_length]
    have hf : f.length ≤ 2 := hfs f (List.mem_cons_self f fs)
    split <;> omega

/-- C5 counterexample: starting from empty history, a single frame with one
detected hand leaves an empty state (the full clear ran) although one
plucker was detected, so the state size differs from the detected plucker
count. -/
theorem c5_counterexample :
    (runFrames 100 100 [] [[soloHand]]).length ≠
      (extractPluckers 100 100 [soloHand]).length := by
  simp [runFrames, processFrame, extractAnchors, extractPluckers]

/-- C5 amended: provided every frame detects at most two hands (the
configured tracker maximum), after every frame the stored state size equals
the number of detected pluckers when at least two hands are present, and is
zero when fewer than two hands are present. -/
theorem c5_state_size_amended (w hgt : ℚ) (frames : List (List Hand))
    (hands : List Hand) (hbound : ∀ f ∈ frames, f.length ≤ 2)
    (hhands : hands.length ≤ 2) :
    (runFrames w hgt [] (frames ++ [hands])).length =
      if 2 ≤ hands.length then (extractPluckers w hgt hands).length else 0 := by
  have hrun : runFrames w hgt [] (frames ++ [hands]) =
      (processFrame w hgt (runFrames w hgt [] frames) hands).1 := by
    simp [runFrames, List.foldl_append]
  have hle := runFrames_length_le w hgt frames [] (by simp) hbound
  rw [hrun, processFrame_state_length]
  simp only [extractPluckers, List.length_map]
  split <;> omega

/-- Witness for C5 amended: a two-hand frame after a one-hand frame leaves a
state of size two, the number of detected pluckers. -/
theorem c5_witness :
    (runFrames 100 100 [] [[soloHand], [demoHand1, demoHand2]]).length =
      (extractPluckers 100 100 [demoHand1, demoHand2]).length := by
  have h := c5_state_size_amended 100 100 [[soloHand]] [demoHand1, demoHand2]
    (by intro f hf; simp at hf; simp [hf]) (by simp)
  simpa [extractPluckers] using h

/-- Ripple record, from src/types (interface Ripple). -/
structure Ripple where
  id : ℕ
  x : ℚ
  y : ℚ
  age : ℕ
  maxAge : ℕ
  intensity : ℚ
deriving DecidableEq, Repr

/-- Fresh ripple as pushed by spawnRipple: age 0, maxAge 60, intensity 1. -/
def freshRipple (ident : ℕ) (px py : ℚ) : Ripple :=
  { id := ident, x := px, y := py, age := 0, maxAge := 60, intensity := 1 }

/-- Shallow embedding of spawnRipple (src/components/StarryCanvas.tsx):
pushes a fresh ripple with age 0, maxAge 60 and intensity 1; the id is the
freshly generated unique identifier. -/
def spawnRipple (rs : List Ripple) (ident : ℕ) (px py : ℚ) : List Ripple :=
  rs ++ [freshRipple ident px py]

/-- One ripple aged by one frame (ripple.age++ in onResults). -/
def ageRipple (r : Ripple) : Ripple := { r with age := r.age + 1 }

/-- Per-frame ripple advance of onResults: every live ripple ages by one,
then ripples with age at least maxAge are removed (the filter keeps
age < maxAge). -/
def stepRipples (rs : List Ripple) : List Ripple :=
  (rs.map ageRipple).filter (fun r => r.age < r.maxAge)

/-- A ripple aged by k frames. -/
def agedBy (r : Ripple) (k : ℕ) : Ripple := { r with age := r.age + k }

/-- Membership in one advance step. -/
theorem mem_stepRipples {r2 : Ripple} {rs : List Ripple} :
    r2 ∈ stepRipples rs ↔ (∃ r0 ∈ rs, r2 = ageRipple r0) ∧ r2.age < r2.maxAge := by
  simp only [stepRipples, List.mem_filter, List.mem_map, decide_eq_true_eq]
  constructor
  · rintro ⟨⟨r0, hr0, rfl⟩, hlt⟩
    exact ⟨⟨r0, hr0, rfl⟩, hlt⟩
  · rintro ⟨⟨r0, hr0, rfl⟩, hlt⟩
    exact ⟨⟨r0, hr0, rfl⟩, hlt⟩

/-- Every ripple that survives an advance step is strictly younger than its
maxAge. -/
theorem age_lt_of_mem_stepRipples {r2 : Ripple} {rs : List Ripple}
    (h : r2 ∈ stepRipples rs) : r2.age < r2.maxAge :=
  (mem_stepRipples.mp h).2

/-- Provenance: after k advance steps every live ripple is an original
ripple aged by k. -/
theorem mem_iterate_stepRipples :
    ∀ (k : ℕ) (rs : List Ripple) (r2 : Ripple), r2 ∈ stepRipples^[k] rs →
      ∃ r0 ∈ rs, r2 = agedBy r0 k := by
  intro k
  induction k with
  | zero =>
    intro rs r2 h
    exact ⟨r2, h, rfl⟩
  | succ j ih =>
    intro rs r2 h
    rw [Function.iterate_succ_apply'] at h
    obtain ⟨⟨r1, hr1, rfl⟩, _⟩ := mem_stepRipples.mp h
    obtain ⟨r0, hr0, heq⟩ := ih rs r1 hr1
    exact ⟨r0, hr0, by rw [heq]; rfl⟩

/-- Survival: a ripple stays in the live set through k advance steps as long
as its age stays below maxAge. -/
theorem agedBy_mem_iterate_stepRipples (r : Ripple) :
    ∀ (k : ℕ) (rs : List Ripple), r ∈ rs → r.age + k < r.maxAge →
      agedBy r k ∈ stepRipples^[k] rs := by
  intro k
  induction k with
  | zero =>
    intro rs hmem _
    exact hmem
  | succ j ih =>
    intro rs hmem hage
    rw [Function.iterate_succ_apply']
    refine mem_stepRipples.mpr ⟨⟨agedBy r j, ih rs hmem (by omega), rfl⟩, ?_⟩
    show r.age + (j + 1) < r.maxAge
    omega

/-- C4: a ripple spawned with age 0 and maxAge 60 is in the live set during
frame k after its spawn (the collection the advance of that frame operates
on: the spawn frame itself for k = 0, the result of k advances otherwise)
exactly when k < 60, hence for exactly maxAge frames counted from the spawn
frame and for no later frame. -/
theorem c4_ripple_lifetime (k ident : ℕ) (px py : ℚ) (rs0 : List Ripple)
    (hfresh : ∀ r ∈ rs0, r.id ≠ ident) :
    (∃ r ∈ stepRipples^[k] (spawnRipple rs0 ident px py), r.id = ident) ↔ k < 60 := by
  constructor
  · rintro ⟨r2, hmem, hid⟩
    by_contra hk
    obtain ⟨r0, hr0, rfl⟩ := mem_iterate_stepRipples k _ _ hmem
    rcases List.mem_append.mp hr0 with h0 | h0
    · exact hfresh r0 h0 hid
    · have hr : r0 = freshRipple ident px py := by simpa using h0
      cases k with
      | zero => omega
      | succ j =>
        rw [Function.iterate_succ_apply'] at hmem
        have hlt := age_lt_of_mem_stepRipples hmem
        rw [hr] at hlt
        simp only [agedBy, freshRipple] at hlt
        omega
  · intro hk
    refine ⟨agedBy (freshRipple ident px py) k, ?_, rfl⟩
    apply agedBy_mem_iterate_stepRipples
    · exact List.mem_append.mpr (Or.inr (by simp [spawnRipple]))
    · simpa [freshRipple] using hk

/-- Witness for C4: the ripple spawned with id 5 is still live during frame
59 after its spawn and gone during frame 60. -/
theorem c4_witness :
    (∃ r ∈ stepRipples^[59] (spawnRipple [] 5 0 0), r.id = 5) ∧
    ¬ (∃ r ∈ stepRipples^[60] (spawnRipple [] 5 0 0), r.id = 5) := by
  constructor
  · exact (c4_ripple_lifetime 59 5 0 0 [] (by simp)).mpr (by norm_num)
  · intro h
    exact absurd ((c4_ripple_lifetime 60 5 0 0 [] (by simp)).mp h) (by norm_num)

/-- One synthesized pluck voice (oscillator plus envelope) as created by
AudioService.playPluck: quantized frequency, peak gain 0.8 reached after a
0.01 s linear attack, exponential decay over 1.5 s. -/
structure Voice where
  freq : ℚ
  peakGain : ℚ
  attackTime : ℚ
  decayTime : ℚ
deriving DecidableEq, Repr

/-- Frequency computed by playPluck: baseFreq 200 plus normalizedX times
freqRange 600, quantized by Math.round(freq / 50) * 50. Math.round rounds
half toward positive infinity, exactly the Mathlib round on rationals. -/
def quantizedPluckFreq (normalizedX : ℚ) : ℚ :=
  ((round ((200 + normalizedX * 600) / 50) : ℤ) : ℚ) * 50

/-- The voice playPluck creates for a given normalized position. -/
def pluckVoice (normalizedX : ℚ) : Voice :=
  { freq := quantizedPluckFreq normalizedX, peakGain := 4/5,
    attackTime := 1/100, decayTime := 3/2 }

/-- Parameters of the synthetic reverb impulse response (duration, decay). -/
structure ReverbSpec where
  duration : ℚ
  decay : ℚ
deriving DecidableEq, Repr

/-- State of the AudioService singleton (src audio service module): the
nullable ctx, masterGain and reverbNode fields, the voices started so far,
and a count of AudioContext constructions (audio graphs built). -/
structure AudioService where
  ctx : Bool
  masterGain : Option ℚ
  reverbNode : Option ReverbSpec
  voices : List Voice
  graphsCreated : ℕ
deriving DecidableEq, Repr

/-- The service as constructed: no context until the user gesture. -/
def initialAudioService : AudioService :=
  { ctx := false, masterGain := none, reverbNode := none, voices := [],
    graphsCreated := 0 }

/-- Shallow embedding of AudioService.initialize: an early return when ctx
already exists, otherwise one new audio graph is built (context, master
gain 0.4 wired to the destination, convolver with a 2.0 s, decay 2.0
impulse response). -/
def initService (s : AudioService) : AudioService :=
  if s.ctx then s
  else
    { s with
      ctx := true
      masterGain := some (2/5)
      reverbNode := some ⟨2, 2⟩
      graphsCreated := s.graphsCreated + 1 }

/-- Shallow embedding of AudioService.playPluck: an early return when ctx,
masterGain or reverbNode is missing, otherwise one self-terminating voice at
the quantized frequency is started. -/
def playPluck (s : AudioService) (normalizedX : ℚ) : AudioService :=
  if s.ctx = false ∨ s.masterGain = none ∨ s.reverbNode = none then s
  else { s with voices := s.voices ++ [pluckVoice normalizedX] }

/-- C8: audio initialization is idempotent: a first call on the fresh
service reaches the ready state (context, master gain and reverb all
present), any further call is a no-op on any state, and two calls on the
fresh service build exactly one audio graph. -/
theorem c8_init_idempotent :
    (∀ s : AudioService, initService (initService s) = initService s) ∧
    (initService initialAudioService).ctx = true ∧
    (initService initialAudioService).masterGain.isSome = true ∧
    (initService initialAudioService).reverbNode.isSome = true ∧
    (initService (initService initialAudioService)).graphsCreated = 1 := by
  refine ⟨?_, by simp [initService, initialAudioService],
    by simp [initService, initialAudioService],
    by simp [initService, initialAudioService],
    by simp [initService, initialAudioService]⟩
  intro s
  by_cases h : s.ctx <;> simp [initService, h]

/-- C9: calling playPluck while the audio context is absent is a silent
no-op leaving the service state unchanged. -/
theorem c9_pluck_noop_before_init (s : AudioService) (x : ℚ)
    (h : s.ctx = false) : playPluck s x = s := by
  unfold playPluck
  rw [if_pos (Or.inl h)]

/-- Witness for C9 on the fresh service at position 1/2. -/
theorem c9_witness : playPluck initialAudioService (1/2) = initialAudioService :=
  c9_pluck_noop_before_init initialAudioService (1/2) rfl

/-- Quantization to a multiple of 50 is a nearest-point projection. -/
theorem quant_nearest (y : ℚ) (j : ℤ) :
    |((round y : ℤ) : ℚ) * 50 - y * 50| ≤ |(j : ℚ) * 50 - y * 50| := by
  have h := round_le y j
  have e1 : |((round y : ℤ) : ℚ) * 50 - y * 50| = |y - ((round y : ℤ) : ℚ)| * 50 := by
    rw [abs_sub_comm, show y * 50 - ((round y : ℤ) : ℚ) * 50 =
      (y - ((round y : ℤ) : ℚ)) * 50 from by ring, abs_mul]
    norm_num
  have e2 : |(j : ℚ) * 50 - y * 50| = |y - (j : ℚ)| * 50 := by
    rw [abs_sub_comm, show y * 50 - (j : ℚ) * 50 = (y - (j : ℚ)) * 50 from by ring,
      abs_mul]
    norm_num
  rw [e1, e2]
  exact mul_le_mul_of_nonneg_right h (by norm_num)

/-- C6: on a ready service, playPluck appends exactly one voice, whose
frequency is the nearest multiple of 50 Hz to the linear map
200 + normalizedPosition * 600 of the 200-800 Hz range; at the extremes the
voice frequencies are 200 Hz and 800 Hz. -/
theorem c6_pluck_frequency_mapping (s : AudioService) (x : ℚ)
    (hctx : s.ctx = true) (hmg : s.masterGain.isSome = true)
    (hrv : s.reverbNode.isSome = true) :
    (playPluck s x).voices = s.voices ++ [pluckVoice x] ∧
    (∃ k : ℤ, (pluckVoice x).freq = 50 * k) ∧
    (∀ j : ℤ, |(pluckVoice x).freq - (200 + x * 600)| ≤
      |(j : ℚ) * 50 - (200 + x * 600)|) ∧
    (pluckVoice 0).freq = 200 ∧ (pluckVoice 1).freq = 800 := by
  refine ⟨?_, ⟨round ((200 + x * 600) / 50), by unfold pluckVoice quantizedPluckFreq; ring⟩,
    ?_, ?_, ?_⟩
  · have hmg2 : s.masterGain ≠ none := Option.isSome_iff_ne_none.mp hmg
    have hrv2 : s.reverbNode ≠ none := Option.isSome_iff_ne_none.mp hrv
    have hcond : ¬(s.ctx = false ∨ s.masterGain = none ∨ s.reverbNode = none) := by
      push_neg
      exact ⟨by simp [hctx], hmg2, hrv2⟩
    unfold playPluck
    rw [if_neg hcond]
  · intro j
    have h := quant_nearest ((200 + x * 600) / 50) j
    rw [div_mul_cancel₀ _ (show (50 : ℚ) ≠ 0 by norm_num)] at h
    simpa [pluckVoice, quantizedPluckFreq] using h
  · simp [pluckVoice, quantizedPluckFreq, round_eq]
    norm_num
  · simp [pluckVoice, quantizedPluckFreq, round_eq]
    norm_num

/-- Witness for C6 on the ready service produced by one initialization. -/
theorem c6_witness :
    (playPluck (initService initialAudioService) 0).voices =
      (initService initialAudioService).voices ++ [pluckVoice 0] ∧
    (pluckVoice 0).freq = 200 ∧ (pluckVoice 1).freq = 800 := by
  have h := c6_pluck_frequency_mapping (initService initialAudioService) 0
    (by simp [initService, initialAudioService])
    (by simp [initService, initialAudioService])
    (by simp [initService, initialAudioService])
  exact ⟨h.1, h.2.2.2⟩

/-- C10: for every normalized position in [0,1] the quantized frequency is
an integer multiple of 50 lying within [200, 800]. -/
theorem c10_quantized_freq_in_range (x : ℚ) (h0 : 0 ≤ x) (h1 : x ≤ 1) :
    (∃ k : ℤ, quantizedPluckFreq x = 50 * k) ∧
    200 ≤ quantizedPluckFreq x ∧ quantizedPluckFreq x ≤ 800 := by
  have hd1 : (4 : ℚ) ≤ (200 + x * 600) / 50 := by
    rw [le_div_iff (by norm_num)]
    linarith
  have hd2 : (200 + x * 600) / 50 ≤ 16 := by
    rw [div_le_iff (by norm_num)]
    linarith
  have hr1 : (4 : ℤ) ≤ round ((200 + x * 600) / 50) := by
    rw [round_eq]
    apply Int.le_floor.mpr
    push_cast
    linarith
  have hr2 : round ((200 + x * 600) / 50) < 17 := by
    rw [round_eq]
    apply Int.floor_lt.mpr
    push_cast
    linarith
  refine ⟨⟨round ((200 + x * 600) / 50), by unfold quantizedPluckFreq; ring⟩, ?_, ?_⟩
  · unfold quantizedPluckFreq
    have hc : (4 : ℚ) ≤ ((round ((200 + x * 600) / 50) : ℤ) : ℚ) := by
      exact_mod_cast hr1
    linarith
  · unfold quantizedPluckFreq
    have h16 : round ((200 + x * 600) / 50) ≤ 16 := by omega
    have hc : ((round ((200 + x * 600) / 50) : ℤ) : ℚ) ≤ 16 := by
      exact_mod_cast h16
    linarith

/-- Witness for C10 at position 1/3. -/
theorem c10_witness :
    (0 : ℚ) ≤ 1/3 ∧ (1 : ℚ)/3 ≤ 1 ∧
    ((∃ k : ℤ, quantizedPluckFreq (1/3) = 50 * k) ∧
      200 ≤ quantizedPluckFreq (1/3) ∧ quantizedPluckFreq (1/3) ≤ 800) :=
  ⟨by norm_num, by norm_num,
    c10_quantized_freq_in_range (1/3) (by norm_num) (by norm_num)⟩
